import Mathlib

/-!
# Verification of the Hotspot Deletion & Reference-Tracking Core

Shallow embedding of `src/delta/global_delete_count_table.cc` and
`src/delta/hotspot_manager.cc` (the GDCT — Global Delete-Count Table — and
the Hotspot Manager façade), together with proofs of the specified
properties of its operations.

CUIDs, PhysIds and sequence numbers are unsigned 64-bit values in the
source; all operations here only compare, insert and erase them, so they
are modelled as `Nat`.  The per-entry `std::unordered_set<uint64_t>` is
modelled as `Finset Nat` (order is never observed), and the table
`std::unordered_map<uint64_t, Entry>` as a function `Nat → Option Entry`.
-/

namespace Gdct

/-- Modelled from the spec: the sentinel `kMaxSequenceNumber` (`SeqMax`)
comes from the engine header `db/dbformat.h`, which is not among the
sources; the spec says it "never compares less than any real sequence".
RocksDB fixes it at `2^56 - 1`. -/
def kMaxSequenceNumber : Nat := 2 ^ 56 - 1

/-- A GDCT entry, `GlobalDeleteCountTable::Entry`.  The struct itself is
declared in `delta/global_delete_count_table.h`, which is not among the
sources; its three fields and their semantics are those of the spec's
data-model table (`phys_ids`, `is_deleted`, `deleted_seq`). -/
structure Entry where
  tracked_phys_ids : Finset Nat
  is_deleted : Bool
  deleted_seq : Nat
  deriving DecidableEq

/-- Modelled from the spec: the default-constructed entry produced by the
lazy `table_[cuid]` initialisation.  Per the spec's data-model table a
fresh entry has no registered files, no delete issued, and
`deleted_seq = SeqMax` ("or `SeqMax` if none"). -/
def emptyEntry : Entry :=
  { tracked_phys_ids := ∅, is_deleted := false, deleted_seq := kMaxSequenceNumber }

/-- The table `table_ : CUID → Entry`. -/
def GDCT := Nat → Option Entry

/-- `table_[cuid]` read side of lazy initialisation: the stored entry, or a
default-constructed one. -/
def lookupOrInit (t : GDCT) (c : Nat) : Entry :=
  (t c).getD emptyEntry

/-- Store an entry under a cuid. -/
def updateEntry (t : GDCT) (c : Nat) (e : Entry) : GDCT :=
  fun x => if x = c then some e else t x

/-- `table_.erase(it)`. -/
def eraseEntry (t : GDCT) (c : Nat) : GDCT :=
  fun x => if x = c then none else t x

/-- `GlobalDeleteCountTable::TrackPhysicalUnit` (global_delete_count_table.cc
lines 7–16): lazily create the entry, insert `phys_id` into its
`tracked_phys_ids`, return `true` iff it was not already present. -/
def trackPhysicalUnit (t : GDCT) (cuid phys_id : Nat) : Bool × GDCT :=
  let entry := lookupOrInit t cuid
  if phys_id ∈ entry.tracked_phys_ids then
    (false, updateEntry t cuid entry)
  else
    (true, updateEntry t cuid
      { entry with tracked_phys_ids := insert phys_id entry.tracked_phys_ids })

/-- `GlobalDeleteCountTable::UntrackPhysicalUnit` (lines 18–28): erase
`phys_id` from the entry's set if the entry exists.  The GC erase of the
entry is commented out in the source, so no entry is ever removed here. -/
def untrackPhysicalUnit (t : GDCT) (cuid phys_id : Nat) : GDCT :=
  match t cuid with
  | none => t
  | some e =>
      updateEntry t cuid { e with tracked_phys_ids := e.tracked_phys_ids.erase phys_id }

/-- `GlobalDeleteCountTable::UntrackFiles` (lines 31–44): erase every file
id of the batch from the entry's set, then erase the entry itself when the
set is empty and `is_deleted` is set. -/
def untrackFiles (t : GDCT) (cuid : Nat) (file_ids : List Nat) : GDCT :=
  match t cuid with
  | none => t
  | some e =>
      let e2 := { e with
        tracked_phys_ids := file_ids.foldl (fun s fid => s.erase fid) e.tracked_phys_ids }
      if e2.tracked_phys_ids = ∅ ∧ e2.is_deleted = true then
        eraseEntry t cuid
      else
        updateEntry t cuid e2

/-- `GlobalDeleteCountTable::MarkDeleted` (lines 67–77): lazily create the
entry, set `is_deleted`, and raise `deleted_seq` to `seq` when the current
value is `kMaxSequenceNumber` or strictly smaller than `seq`.  Always
returns `true`. -/
def markDeleted (t : GDCT) (cuid seq : Nat) : Bool × GDCT :=
  let entry := lookupOrInit t cuid
  let entry1 := { entry with is_deleted := true }
  let entry2 :=
    if entry1.deleted_seq = kMaxSequenceNumber ∨ entry1.deleted_seq < seq then
      { entry1 with deleted_seq := seq }
    else entry1
  (true, updateEntry t cuid entry2)

/-- `GlobalDeleteCountTable::IsDeleted` (lines 79–97): the MVCC visibility
predicate. -/
def isDeleted (t : GDCT) (cuid visible_seq found_seq : Nat) : Bool :=
  match t cuid with
  | none => false
  | some e =>
      if e.is_deleted = false then false
      else if e.deleted_seq = kMaxSequenceNumber then false
      else decide (visible_seq ≥ e.deleted_seq) && decide (found_seq < e.deleted_seq)

/-- `GlobalDeleteCountTable::GetDeleteSequence` (lines 108–116). -/
def getDeleteSequence (t : GDCT) (cuid : Nat) : Nat :=
  match t cuid with
  | some e => if e.is_deleted then e.deleted_seq else kMaxSequenceNumber
  | none => kMaxSequenceNumber

/-- `GlobalDeleteCountTable::IsTracked` (lines 118–121). -/
def isTracked (t : GDCT) (cuid : Nat) : Bool :=
  (t cuid).isSome

/-- Inner statement of phase 1 of `AtomicCompactionUpdate` (line 170):
`table_[cuid].tracked_phys_ids.insert(out_id)`. -/
def creditCuid (out_id : Nat) (t : GDCT) (cuid : Nat) : GDCT :=
  let entry := lookupOrInit t cuid
  updateEntry t cuid
    { entry with tracked_phys_ids := insert out_id entry.tracked_phys_ids }

/-- Inner loop of phase 1 (lines 169–171): credit one output file to every
cuid of its survivor set. -/
def creditFile (t : GDCT) (pr : Nat × List Nat) : GDCT :=
  pr.2.foldl (creditCuid pr.1) t

/-- Phase 1 of `AtomicCompactionUpdate` (lines 165–172): for each
`(out_id, cuids)` pair of `output_file_to_cuids`, insert `out_id` into the
(lazily created) entry of every cuid of the pair. -/
def creditOutputs (t : GDCT) (outs : List (Nat × List Nat)) : GDCT :=
  outs.foldl creditFile t

/-- One iteration of phase 2+3 of `AtomicCompactionUpdate` (lines
175–190): if the cuid has an entry, erase every input file from its set,
then erase the entry when the set is empty and `is_deleted` is set. -/
def debitCuid (t : GDCT) (input_files : List Nat) (cuid : Nat) : GDCT :=
  match t cuid with
  | none => t
  | some e =>
      let e2 := { e with
        tracked_phys_ids := input_files.foldl (fun s fid => s.erase fid) e.tracked_phys_ids }
      if e2.tracked_phys_ids = ∅ ∧ e2.is_deleted = true then
        eraseEntry t cuid
      else
        updateEntry t cuid e2

/-- `GlobalDeleteCountTable::AtomicCompactionUpdate` (lines 157–191):
credit every output file to its surviving cuids, then for every involved
cuid debit all input files and garbage-collect empty deleted entries. -/
def atomicCompactionUpdate (t : GDCT) (involved_cuids input_files : List Nat)
    (output_file_to_cuids : List (Nat × List Nat)) : GDCT :=
  involved_cuids.foldl (fun acc cuid => debitCuid acc input_files cuid)
    (creditOutputs t output_file_to_cuids)

/-- `HotspotManager::ExtractCUID` (hotspot_manager.cc lines 22–41): keys
shorter than 24 bytes yield 0; otherwise bytes 16..23 are decoded
big-endian.  A key is a list of bytes (`unsigned char` ⇒ `% 256`). -/
def extractCUID (key : List Nat) : Nat :=
  if key.length < 24 then 0
  else
    let b : Nat → Nat := fun i => key.getD (16 + i) 0 % 256
    Nat.lor (Nat.shiftLeft (b 0) 56) (Nat.lor (Nat.shiftLeft (b 1) 48)
      (Nat.lor (Nat.shiftLeft (b 2) 40) (Nat.lor (Nat.shiftLeft (b 3) 32)
      (Nat.lor (Nat.shiftLeft (b 4) 24) (Nat.lor (Nat.shiftLeft (b 5) 16)
      (Nat.lor (Nat.shiftLeft (b 6) 8) (b 7)))))))

/-- Modelled from the spec: `HotspotManager::InterceptDelete(key, seq)` is
declared in hotspot_manager.h (line 63) but its body is not among the
sources (hotspot_manager.cc only implements the unsequenced overload).
Per the spec: extract the CUID; if zero return `false` leaving the table
alone; otherwise call `MarkDeleted(cuid, seq)` and return `true`. -/
def interceptDelete (t : GDCT) (key : List Nat) (seq : Nat) : Bool × GDCT :=
  let cuid := extractCUID key
  if cuid = 0 then (false, t)
  else (true, (markDeleted t cuid seq).2)

/-- `HotspotManager::RegisterFileRefs` (hotspot_manager.cc lines 71–75):
forward `TrackPhysicalUnit(cuid, file_number)` for every cuid of the set,
with no filtering. -/
def registerFileRefs (t : GDCT) (file_number : Nat) (cuids : List Nat) : GDCT :=
  cuids.foldl (fun acc cuid => (trackPhysicalUnit acc cuid file_number).2) t

/-! ## Basic lemmas about the table primitives -/

theorem updateEntry_self (t : GDCT) (c : Nat) (e : Entry) :
    updateEntry t c e c = some e := by
  simp [updateEntry]

theorem updateEntry_ne (t : GDCT) (c : Nat) (e : Entry) (x : Nat) (hx : x ≠ c) :
    updateEntry t c e x = t x := by
  simp [updateEntry, hx]

theorem eraseEntry_self (t : GDCT) (c : Nat) :
    eraseEntry t c c = none := by
  simp [eraseEntry]

theorem eraseEntry_ne (t : GDCT) (c : Nat) (x : Nat) (hx : x ≠ c) :
    eraseEntry t c x = t x := by
  simp [eraseEntry, hx]

theorem mem_foldl_erase (l : List Nat) (s : Finset Nat) (x : Nat) :
    x ∈ l.foldl (fun acc fid => acc.erase fid) s ↔ x ∈ s ∧ x ∉ l := by
  induction l generalizing s with
  | nil => simp
  | cons f l ih =>
      simp only [List.foldl_cons, ih, Finset.mem_erase, List.mem_cons]
      constructor
      · rintro ⟨⟨hxf, hxs⟩, hxl⟩
        exact ⟨hxs, by rintro (rfl | h) <;> [exact hxf rfl; exact hxl h]⟩
      · rintro ⟨hxs, hx⟩
        exact ⟨⟨fun h => hx (Or.inl h), hxs⟩, fun h => hx (Or.inr h)⟩

theorem foldl_erase_empty (l : List Nat) (s : Finset Nat)
    (h : ∀ p ∈ s, p ∈ l) :
    l.foldl (fun acc fid => acc.erase fid) s = ∅ := by
  apply Finset.eq_empty_iff_forall_not_mem.2
  intro x hx
  rw [mem_foldl_erase] at hx
  exact hx.2 (h x hx.1)

theorem trackPhysicalUnit_fst (t : GDCT) (c p : Nat) :
    (trackPhysicalUnit t c p).1 = !decide (p ∈ (lookupOrInit t c).tracked_phys_ids) := by
  by_cases hp : p ∈ (lookupOrInit t c).tracked_phys_ids <;>
    simp [trackPhysicalUnit, hp]

theorem trackPhysicalUnit_snd_self (t : GDCT) (c p : Nat) :
    (trackPhysicalUnit t c p).2 c =
      some { lookupOrInit t c with
             tracked_phys_ids := insert p (lookupOrInit t c).tracked_phys_ids } := by
  by_cases hp : p ∈ (lookupOrInit t c).tracked_phys_ids
  · simp [trackPhysicalUnit, hp, updateEntry_self, Finset.insert_eq_self.2 hp]
  · simp [trackPhysicalUnit, hp, updateEntry_self]

theorem trackPhysicalUnit_snd_ne (t : GDCT) (c p x : Nat) (hx : x ≠ c) :
    (trackPhysicalUnit t c p).2 x = t x := by
  by_cases hp : p ∈ (lookupOrInit t c).tracked_phys_ids <;>
    simp [trackPhysicalUnit, hp, updateEntry_ne _ _ _ _ hx]

theorem markDeleted_fst (t : GDCT) (c seq : Nat) :
    (markDeleted t c seq).1 = true := rfl

theorem markDeleted_snd_self (t : GDCT) (c seq : Nat) :
    (markDeleted t c seq).2 c =
      some { tracked_phys_ids := (lookupOrInit t c).tracked_phys_ids,
             is_deleted := true,
             deleted_seq :=
               if (lookupOrInit t c).deleted_seq = kMaxSequenceNumber ∨
                  (lookupOrInit t c).deleted_seq < seq
               then seq else (lookupOrInit t c).deleted_seq } := by
  by_cases hc : (lookupOrInit t c).deleted_seq = kMaxSequenceNumber ∨
      (lookupOrInit t c).deleted_seq < seq <;>
    simp [markDeleted, hc, updateEntry_self]

theorem markDeleted_snd_ne (t : GDCT) (c seq x : Nat) (hx : x ≠ c) :
    (markDeleted t c seq).2 x = t x := by
  by_cases hc : (lookupOrInit t c).deleted_seq = kMaxSequenceNumber ∨
      (lookupOrInit t c).deleted_seq < seq <;>
    simp [markDeleted, hc, updateEntry_ne _ _ _ _ hx]

theorem untrackPhysicalUnit_self (t : GDCT) (c p : Nat) :
    untrackPhysicalUnit t c p c =
      (t c).map (fun e => { e with tracked_phys_ids := e.tracked_phys_ids.erase p }) := by
  cases h : t c with
  | none => simp [untrackPhysicalUnit, h]
  | some e => simp [untrackPhysicalUnit, h, updateEntry_self]

theorem untrackPhysicalUnit_ne (t : GDCT) (c p x : Nat) (hx : x ≠ c) :
    untrackPhysicalUnit t c p x = t x := by
  cases h : t c with
  | none => simp [untrackPhysicalUnit, h]
  | some e => simp [untrackPhysicalUnit, h, updateEntry_ne _ _ _ _ hx]

theorem untrackFiles_ne (t : GDCT) (c : Nat) (fids : List Nat) (x : Nat) (hx : x ≠ c) :
    untrackFiles t c fids x = t x := by
  cases h : t c with
  | none => simp [untrackFiles, h]
  | some e =>
      simp only [untrackFiles, h]
      split
      · exact eraseEntry_ne _ _ _ hx
      · exact updateEntry_ne _ _ _ _ hx

theorem untrackFiles_gc (t : GDCT) (c : Nat) (fids : List Nat) (e : Entry)
    (h : t c = some e) (hdel : e.is_deleted = true)
    (hsub : ∀ p ∈ e.tracked_phys_ids, p ∈ fids) :
    untrackFiles t c fids c = none := by
  have hempty : fids.foldl (fun acc fid => acc.erase fid) e.tracked_phys_ids = ∅ :=
    foldl_erase_empty _ _ hsub
  simp [untrackFiles, h, hempty, hdel, eraseEntry_self]

theorem debitCuid_ne (t : GDCT) (inp : List Nat) (c x : Nat) (hx : x ≠ c) :
    debitCuid t inp c x = t x := by
  cases h : t c with
  | none => simp [debitCuid, h]
  | some e =>
      simp only [debitCuid, h]
      split
      · exact eraseEntry_ne _ _ _ hx
      · exact updateEntry_ne _ _ _ _ hx

theorem debitCuid_none (t : GDCT) (inp : List Nat) (c : Nat) (h : t c = none) :
    debitCuid t inp c = t := by
  simp [debitCuid, h]

theorem debitCuid_gc (t : GDCT) (inp : List Nat) (c : Nat) (e : Entry)
    (h : t c = some e) (hdel : e.is_deleted = true)
    (hsub : ∀ p ∈ e.tracked_phys_ids, p ∈ inp) :
    debitCuid t inp c c = none := by
  have hempty : inp.foldl (fun acc fid => acc.erase fid) e.tracked_phys_ids = ∅ :=
    foldl_erase_empty _ _ hsub
  simp [debitCuid, h, hempty, hdel, eraseEntry_self]

theorem debitFold_none (l : List Nat) (inp : List Nat) :
    ∀ t : GDCT, ∀ c : Nat, t c = none →
      (l.foldl (fun acc cuid => debitCuid acc inp cuid) t) c = none := by
  induction l with
  | nil => intro t c h; exact h
  | cons c' l ih =>
      intro t c h
      rw [List.foldl_cons]
      refine ih _ _ ?_
      show debitCuid t inp c' c = none
      by_cases hx : c = c'
      · subst hx; rw [debitCuid_none _ _ _ h]; exact h
      · rw [debitCuid_ne _ _ _ _ hx]; exact h

theorem debitFold_not_mem (l : List Nat) (inp : List Nat) :
    ∀ t : GDCT, ∀ c : Nat, c ∉ l →
      (l.foldl (fun acc cuid => debitCuid acc inp cuid) t) c = t c := by
  induction l with
  | nil => intro t c _; rfl
  | cons c' l ih =>
      intro t c h
      have hne : c ≠ c' := fun hc => h (hc ▸ List.mem_cons_self c' l)
      have hl : c ∉ l := fun hc => h (List.mem_cons_of_mem _ hc)
      rw [List.foldl_cons, ih _ _ hl]
      exact debitCuid_ne _ _ _ _ hne

theorem creditCuid_ne (oid : Nat) (t : GDCT) (c x : Nat) (hx : x ≠ c) :
    creditCuid oid t c x = t x :=
  updateEntry_ne _ _ _ _ hx

theorem creditFold_not_mem (cs : List Nat) (oid : Nat) :
    ∀ t : GDCT, ∀ c : Nat, c ∉ cs → (cs.foldl (creditCuid oid) t) c = t c := by
  induction cs with
  | nil => intro t c _; rfl
  | cons c' cs ih =>
      intro t c h
      have hne : c ≠ c' := fun hc => h (hc ▸ List.mem_cons_self c' cs)
      have hl : c ∉ cs := fun hc => h (List.mem_cons_of_mem _ hc)
      rw [List.foldl_cons, ih _ _ hl, creditCuid_ne _ _ _ _ hne]

theorem debitFold_gc (l : List Nat) (inp : List Nat) :
    ∀ (t : GDCT) (c : Nat) (e : Entry), c ∈ l → t c = some e →
      e.is_deleted = true → (∀ p ∈ e.tracked_phys_ids, p ∈ inp) →
      (l.foldl (fun acc cuid => debitCuid acc inp cuid) t) c = none := by
  induction l with
  | nil => intro t c e hmem; exact absurd hmem (List.not_mem_nil c)
  | cons c' l ih =>
      intro t c e hmem h hdel hsub
      rw [List.foldl_cons]
      by_cases hx : c = c'
      · subst hx
        exact debitFold_none l inp _ c (debitCuid_gc t inp c e h hdel hsub)
      · have hmem' : c ∈ l := by
          rcases List.mem_cons.1 hmem with h1 | h1
          · exact absurd h1 hx
          · exact h1
        have h' : debitCuid t inp c' c = some e := by
          rw [debitCuid_ne _ _ _ _ hx]; exact h
        exact ih _ _ _ hmem' h' hdel hsub

theorem creditCuid_flag (oid : Nat) (t : GDCT) (c2 c : Nat) (e : Entry)
    (h : t c = some e) :
    ∃ s, creditCuid oid t c2 c = some ⟨s, e.is_deleted, e.deleted_seq⟩ := by
  by_cases hx : c = c2
  · subst hx
    have hlook : lookupOrInit t c = e := by simp [lookupOrInit, h]
    refine ⟨insert oid e.tracked_phys_ids, ?_⟩
    rw [creditCuid, hlook, updateEntry_self]
  · exact ⟨e.tracked_phys_ids, by rw [creditCuid_ne _ _ _ _ hx, h]⟩

theorem creditFold_flag (cs : List Nat) (oid : Nat) :
    ∀ (t : GDCT) (c : Nat) (e : Entry), t c = some e →
      ∃ s, (cs.foldl (creditCuid oid) t) c = some ⟨s, e.is_deleted, e.deleted_seq⟩ := by
  induction cs with
  | nil => intro t c e h; exact ⟨e.tracked_phys_ids, h⟩
  | cons c' cs ih =>
      intro t c e h
      rw [List.foldl_cons]
      obtain ⟨s, hs⟩ := creditCuid_flag oid t c' c e h
      obtain ⟨s2, hs2⟩ := ih _ _ _ hs
      exact ⟨s2, hs2⟩

theorem creditOutputs_flag (outs : List (Nat × List Nat)) :
    ∀ (t : GDCT) (c : Nat) (e : Entry), t c = some e →
      ∃ s, creditOutputs t outs c = some ⟨s, e.is_deleted, e.deleted_seq⟩ := by
  induction outs with
  | nil => intro t c e h; exact ⟨e.tracked_phys_ids, h⟩
  | cons pr outs ih =>
      intro t c e h
      have hstep : creditOutputs t (pr :: outs) =
          creditOutputs (creditFile t pr) outs := rfl
      rw [hstep]
      obtain ⟨s, hs⟩ := creditFold_flag pr.2 pr.1 t c e h
      obtain ⟨s2, hs2⟩ := ih _ _ _ hs
      exact ⟨s2, hs2⟩

theorem creditCuid_mem_preserved (oid2 : Nat) (t : GDCT) (c2 c p : Nat)
    (h : p ∈ (lookupOrInit t c).tracked_phys_ids) :
    p ∈ (lookupOrInit (creditCuid oid2 t c2) c).tracked_phys_ids := by
  by_cases hx : c = c2
  · subst hx
    rw [lookupOrInit, creditCuid, updateEntry_self]
    exact Finset.mem_insert_of_mem h
  · rw [lookupOrInit, creditCuid_ne _ _ _ _ hx]
    exact h

theorem creditFold_mem_preserved (cs : List Nat) (oid2 : Nat) :
    ∀ (t : GDCT) (c p : Nat), p ∈ (lookupOrInit t c).tracked_phys_ids →
      p ∈ (lookupOrInit (cs.foldl (creditCuid oid2) t) c).tracked_phys_ids := by
  induction cs with
  | nil => intro t c p h; exact h
  | cons c' cs ih =>
      intro t c p h
      rw [List.foldl_cons]
      exact ih _ _ _ (creditCuid_mem_preserved oid2 t c' c p h)

theorem creditFold_mem_self (cs : List Nat) (oid : Nat) :
    ∀ (t : GDCT) (c : Nat), c ∈ cs →
      oid ∈ (lookupOrInit (cs.foldl (creditCuid oid) t) c).tracked_phys_ids := by
  induction cs with
  | nil => intro t c h; exact absurd h (List.not_mem_nil c)
  | cons c' cs ih =>
      intro t c h
      rw [List.foldl_cons]
      by_cases hx : c = c'
      · subst hx
        refine creditFold_mem_preserved cs oid _ c oid ?_
        rw [lookupOrInit, creditCuid, updateEntry_self]
        exact Finset.mem_insert_self _ _
      · have hc : c ∈ cs := by
          rcases List.mem_cons.1 h with h1 | h1
          · exact absurd h1 hx
          · exact h1
        exact ih _ _ hc

theorem creditOutputs_mem_preserved (outs : List (Nat × List Nat)) :
    ∀ (t : GDCT) (c p : Nat), p ∈ (lookupOrInit t c).tracked_phys_ids →
      p ∈ (lookupOrInit (creditOutputs t outs) c).tracked_phys_ids := by
  induction outs with
  | nil => intro t c p h; exact h
  | cons pr outs ih =>
      intro t c p h
      have hstep : creditOutputs t (pr :: outs) =
          creditOutputs (creditFile t pr) outs := rfl
      rw [hstep]
      exact ih _ _ _ (creditFold_mem_preserved pr.2 pr.1 t c p h)

theorem creditOutputs_mem (outs : List (Nat × List Nat)) :
    ∀ (t : GDCT), ∀ pr ∈ outs, ∀ c ∈ pr.2,
      pr.1 ∈ (lookupOrInit (creditOutputs t outs) c).tracked_phys_ids := by
  induction outs with
  | nil => intro t pr h; exact absurd h (List.not_mem_nil pr)
  | cons q outs ih =>
      intro t pr h c hc
      have hstep : creditOutputs t (q :: outs) =
          creditOutputs (creditFile t q) outs := rfl
      rw [hstep]
      rcases List.mem_cons.1 h with h1 | h1
      · subst h1
        exact creditOutputs_mem_preserved outs _ c pr.1
          (creditFold_mem_self pr.2 pr.1 t c hc)
      · exact ih _ pr h1 c hc

theorem debitCuid_no_input (t : GDCT) (inp : List Nat) (c0 p0 : Nat)
    (hp : p0 ∈ inp) :
    ∀ e0 : Entry, debitCuid t inp c0 c0 = some e0 → p0 ∉ e0.tracked_phys_ids := by
  intro e0 he0
  cases h : t c0 with
  | none =>
      rw [debitCuid_none _ _ _ h, h] at he0
      exact absurd he0 (by simp)
  | some e =>
      simp only [debitCuid, h] at he0
      split at he0
      · rw [eraseEntry_self] at he0
        exact absurd he0 (by simp)
      · rw [updateEntry_self] at he0
        cases he0
        intro hmem
        exact ((mem_foldl_erase inp e.tracked_phys_ids p0).1 hmem).2 hp

theorem debitFold_no_input (l : List Nat) (inp : List Nat) :
    ∀ (t : GDCT) (c0 p0 : Nat), p0 ∈ inp →
      (c0 ∈ l ∨ (∀ e0 : Entry, t c0 = some e0 → p0 ∉ e0.tracked_phys_ids)) →
      ∀ e0 : Entry,
        (l.foldl (fun acc cuid => debitCuid acc inp cuid) t) c0 = some e0 →
        p0 ∉ e0.tracked_phys_ids := by
  induction l with
  | nil =>
      intro t c0 p0 hp h
      rcases h with h | h
      · exact absurd h (List.not_mem_nil c0)
      · exact h
  | cons c' l ih =>
      intro t c0 p0 hp h
      rw [List.foldl_cons]
      refine ih _ _ _ hp ?_
      by_cases hx : c0 = c'
      · subst hx
        exact Or.inr (debitCuid_no_input t inp c0 p0 hp)
      · rcases h with h | h
        · rcases List.mem_cons.1 h with h1 | h1
          · exact absurd h1 hx
          · exact Or.inl h1
        · refine Or.inr ?_
          intro e0 he0
          rw [debitCuid_ne _ _ _ _ hx] at he0
          exact h e0 he0

/-- "The deleted flag survives or the entry is gone": state of one cuid
after a mutation, given that its entry was flagged deleted before. -/
def delOrGone (t : GDCT) (c : Nat) : Prop :=
  t c = none ∨ ∃ e, t c = some e ∧ e.is_deleted = true

theorem debitCuid_delOrGone (t : GDCT) (inp : List Nat) (c2 c : Nat)
    (h : delOrGone t c) : delOrGone (debitCuid t inp c2) c := by
  by_cases hx : c = c2
  · subst hx
    rcases h with h | ⟨e, he, hf⟩
    · rw [debitCuid_none _ _ _ h]; exact Or.inl h
    · simp only [debitCuid, he]
      split
      · exact Or.inl (eraseEntry_self _ _)
      · exact Or.inr ⟨_, updateEntry_self _ _ _, hf⟩
  · rcases h with h | ⟨e, he, hf⟩
    · exact Or.inl (by rw [debitCuid_ne _ _ _ _ hx]; exact h)
    · exact Or.inr ⟨e, by rw [debitCuid_ne _ _ _ _ hx]; exact he, hf⟩

theorem debitFold_delOrGone (l : List Nat) (inp : List Nat) :
    ∀ (t : GDCT) (c : Nat), delOrGone t c →
      delOrGone (l.foldl (fun acc cuid => debitCuid acc inp cuid) t) c := by
  induction l with
  | nil => intro t c h; exact h
  | cons c' l ih =>
      intro t c h
      rw [List.foldl_cons]
      exact ih _ _ (debitCuid_delOrGone t inp c' c h)

theorem creditOutputs_not_mem (outs : List (Nat × List Nat)) :
    ∀ t : GDCT, ∀ c : Nat, (∀ pr ∈ outs, c ∉ pr.2) →
      creditOutputs t outs c = t c := by
  induction outs with
  | nil => intro t c _; rfl
  | cons pr outs ih =>
      intro t c h
      have h1 : c ∉ pr.2 := h pr (List.mem_cons_self _ _)
      have h2 : ∀ q ∈ outs, c ∉ q.2 := fun q hq => h q (List.mem_cons_of_mem _ hq)
      have hstep : creditOutputs t (pr :: outs) = creditOutputs (creditFile t pr) outs := rfl
      rw [hstep, ih _ _ h2]
      exact creditFold_not_mem _ _ _ _ h1

end Gdct

namespace Gdct

/-! ## The claims -/

/-- C1.  `IsDeleted(cuid, visible_seq, found_seq)` returns true iff an
entry for the cuid exists with `is_deleted` set, its `deleted_seq` is not
`SeqMax`, `visible_seq ≥ deleted_seq`, and `found_seq < deleted_seq`
(strict); in every other case it returns false. -/
theorem isDeleted_characterisation (t : GDCT) (cuid visible_seq found_seq : Nat) :
    isDeleted t cuid visible_seq found_seq = true ↔
      ∃ e, t cuid = some e ∧ e.is_deleted = true ∧
        e.deleted_seq ≠ kMaxSequenceNumber ∧
        visible_seq ≥ e.deleted_seq ∧ found_seq < e.deleted_seq := by
  cases h : t cuid with
  | none => simp [isDeleted, h]
  | some e =>
      by_cases hd : e.is_deleted = true
      · by_cases hm : e.deleted_seq = kMaxSequenceNumber
        · simp [isDeleted, h, hd, hm]
        · simp [isDeleted, h, hd, hm, and_assoc]
      · simp only [Bool.not_eq_true] at hd
        simp [isDeleted, h, hd]

/-- C6.  `TrackPhysicalUnit(cuid, phys_id)` returns true exactly when
`phys_id` was not already present in the (lazily created) entry's set;
calling it twice with the same arguments leaves the table identical to one
call and the second invocation returns false. -/
theorem trackPhysicalUnit_idempotent (t : GDCT) (cuid phys_id : Nat) :
    ((trackPhysicalUnit t cuid phys_id).1 = true ↔
      phys_id ∉ (lookupOrInit t cuid).tracked_phys_ids) ∧
    trackPhysicalUnit (trackPhysicalUnit t cuid phys_id).2 cuid phys_id =
      (false, (trackPhysicalUnit t cuid phys_id).2) := by
  have hret : (trackPhysicalUnit t cuid phys_id).1 = true ↔
      phys_id ∉ (lookupOrInit t cuid).tracked_phys_ids := by
    rw [trackPhysicalUnit_fst]; simp
  refine ⟨hret, ?_⟩
  set t1 := (trackPhysicalUnit t cuid phys_id).2 with ht1
  have hlook1 : lookupOrInit t1 cuid =
      { lookupOrInit t cuid with
        tracked_phys_ids := insert phys_id (lookupOrInit t cuid).tracked_phys_ids } := by
    rw [ht1, lookupOrInit, trackPhysicalUnit_snd_self]; rfl
  have hmem : phys_id ∈ (lookupOrInit t1 cuid).tracked_phys_ids := by
    rw [hlook1]; exact Finset.mem_insert_self _ _
  have hfst : (trackPhysicalUnit t1 cuid phys_id).1 = false := by
    rw [trackPhysicalUnit_fst]; simp [hmem]
  have hsnd : (trackPhysicalUnit t1 cuid phys_id).2 = t1 := by
    funext x
    by_cases hx : x = cuid
    · subst hx
      rw [trackPhysicalUnit_snd_self, hlook1, ht1, trackPhysicalUnit_snd_self]
      simp
    · rw [trackPhysicalUnit_snd_ne _ _ _ _ hx]
  exact Prod.ext hfst hsnd

/-- Iterated `MarkDeleted` on one cuid (the table after a sequence of
delete interceptions). -/
def runMarks (t : GDCT) (cuid : Nat) (seqs : List Nat) : GDCT :=
  seqs.foldl (fun acc s => (markDeleted acc cuid s).2) t

theorem runMarks_entry (rest : List Nat) :
    ∀ (t : GDCT) (cuid : Nat) (ph : Finset Nat) (d : Nat),
      t cuid = some ⟨ph, true, d⟩ → d < kMaxSequenceNumber →
      (∀ s ∈ rest, s < kMaxSequenceNumber) →
      runMarks t cuid rest cuid = some ⟨ph, true, rest.foldl Nat.max d⟩ := by
  induction rest with
  | nil => intro t cuid ph d h _ _; exact h
  | cons s rest ih =>
      intro t cuid ph d h hd hall
      have hs : s < kMaxSequenceNumber := hall s (List.mem_cons_self _ _)
      have hrest : ∀ x ∈ rest, x < kMaxSequenceNumber :=
        fun x hx => hall x (List.mem_cons_of_mem _ hx)
      have hlook : lookupOrInit t cuid = ⟨ph, true, d⟩ := by
        simp [lookupOrInit, h]
      have hstep : (markDeleted t cuid s).2 cuid =
          some ⟨ph, true, Nat.max d s⟩ := by
        rw [markDeleted_snd_self, hlook]
        have hne : d ≠ kMaxSequenceNumber := Nat.ne_of_lt hd
        rcases Nat.lt_or_ge d s with hlt | hge
        · simp [hne, hlt, Nat.max_eq_right hlt.le]
        · have : ¬ d < s := Nat.not_lt.2 hge
          simp [hne, this, Nat.max_eq_left hge]
      have hmax : Nat.max d s < kMaxSequenceNumber := Nat.max_lt.2 ⟨hd, hs⟩
      have hrun : runMarks t cuid (s :: rest) =
          runMarks (markDeleted t cuid s).2 cuid rest := rfl
      rw [hrun, ih _ _ _ _ hstep hmax hrest, List.foldl_cons]

/-- C5.  `MarkDeleted(cuid, seq)` creates the entry if absent, sets
`is_deleted`, updates `deleted_seq` to `seq` exactly when the current
value is `SeqMax` or strictly less than `seq`, and always returns true;
across a run of deletes on one cuid `deleted_seq` never decreases
(conjunct 3: one step never lowers a real delete sequence) and afterwards
equals the maximum sequence seen (conjunct 4, starting from an untracked
cuid with real sequence numbers). -/
theorem markDeleted_monotone_max (t : GDCT) (cuid seq s0 : Nat) (rest : List Nat) :
    (markDeleted t cuid seq).1 = true ∧
    (markDeleted t cuid seq).2 cuid =
      some { tracked_phys_ids := (lookupOrInit t cuid).tracked_phys_ids,
             is_deleted := true,
             deleted_seq :=
               if (lookupOrInit t cuid).deleted_seq = kMaxSequenceNumber ∨
                  (lookupOrInit t cuid).deleted_seq < seq
               then seq else (lookupOrInit t cuid).deleted_seq } ∧
    (∀ e : Entry, t cuid = some e → e.deleted_seq ≠ kMaxSequenceNumber →
      e.deleted_seq ≤ (lookupOrInit (markDeleted t cuid seq).2 cuid).deleted_seq) ∧
    (t cuid = none → s0 < kMaxSequenceNumber →
      (∀ s ∈ rest, s < kMaxSequenceNumber) →
      getDeleteSequence (runMarks t cuid (s0 :: rest)) cuid = rest.foldl Nat.max s0) := by
  refine ⟨markDeleted_fst t cuid seq, markDeleted_snd_self t cuid seq, ?_, ?_⟩
  · intro e he hne
    have hlook : lookupOrInit t cuid = e := by simp [lookupOrInit, he]
    rw [lookupOrInit, markDeleted_snd_self, hlook]
    by_cases hc : e.deleted_seq = kMaxSequenceNumber ∨ e.deleted_seq < seq
    · rcases hc with hc | hc
      · exact absurd hc hne
      · simp [hne, hc]
        exact hc.le
    · simp [hc]
  · intro hnone h0 hall
    have hlook : lookupOrInit t cuid = emptyEntry := by simp [lookupOrInit, hnone]
    have hstep : (markDeleted t cuid s0).2 cuid = some ⟨∅, true, s0⟩ := by
      rw [markDeleted_snd_self, hlook]
      simp [emptyEntry]
    have hrun : runMarks t cuid (s0 :: rest) =
        runMarks (markDeleted t cuid s0).2 cuid rest := rfl
    rw [hrun, getDeleteSequence, runMarks_entry rest _ _ _ _ hstep h0 hall]
    simp

/-- Witness for C5: concrete run `[3, 7, 2]` on an untracked cuid ends
with delete sequence `max (max 3 7) 2 = 7`, and a single further delete at
a lower sequence does not lower a recorded real delete sequence. -/
theorem markDeleted_monotone_max_witness :
    getDeleteSequence (runMarks (fun _ => none) 1 (3 :: [7, 2])) 1 =
        [7, 2].foldl Nat.max 3 ∧
    5 ≤ (lookupOrInit (markDeleted (updateEntry (fun _ => none) 1 ⟨∅, true, 5⟩) 1 2).2 1).deleted_seq := by
  constructor
  · exact (markDeleted_monotone_max (fun _ => none) 1 2 3 [7, 2]).2.2.2 rfl
      (by decide) (by decide)
  · exact (markDeleted_monotone_max (updateEntry (fun _ => none) 1 ⟨∅, true, 5⟩)
      1 2 0 []).2.2.1 ⟨∅, true, 5⟩ (by decide) (by decide)

/-- C8.  Starting from a table with no entry for the cuid, `MarkDeleted`
followed by `TrackPhysicalUnit` reaches exactly the same table as the two
operations in the reverse order. -/
theorem markDeleted_trackPhysicalUnit_commute (t : GDCT) (cuid phys_id seq : Nat)
    (h : t cuid = none) :
    (trackPhysicalUnit (markDeleted t cuid seq).2 cuid phys_id).2 =
      (markDeleted (trackPhysicalUnit t cuid phys_id).2 cuid seq).2 := by
  funext x
  by_cases hx : x = cuid
  · subst hx
    have hlook : lookupOrInit t x = emptyEntry := by simp [lookupOrInit, h]
    have h1 : lookupOrInit (markDeleted t x seq).2 x = ⟨∅, true, seq⟩ := by
      rw [lookupOrInit, markDeleted_snd_self, hlook]
      simp [emptyEntry]
    have h2 : lookupOrInit (trackPhysicalUnit t x phys_id).2 x =
        ⟨insert phys_id ∅, false, kMaxSequenceNumber⟩ := by
      rw [lookupOrInit, trackPhysicalUnit_snd_self, hlook]
      simp [emptyEntry]
    rw [trackPhysicalUnit_snd_self, markDeleted_snd_self, h1, h2]
    simp
  · rw [trackPhysicalUnit_snd_ne _ _ _ _ hx, markDeleted_snd_ne _ _ _ _ hx,
      markDeleted_snd_ne _ _ _ _ hx, trackPhysicalUnit_snd_ne _ _ _ _ hx]

/-- Witness for C8 at a concrete untracked cuid. -/
theorem markDeleted_trackPhysicalUnit_commute_witness :
    (fun _ => none : GDCT) 1 = none ∧
    (trackPhysicalUnit (markDeleted (fun _ => none) 1 3).2 1 2).2 =
      (markDeleted (trackPhysicalUnit (fun _ => none) 1 2).2 1 3).2 :=
  ⟨rfl, markDeleted_trackPhysicalUnit_commute (fun _ => none) 1 2 3 rfl⟩

/-- C2.  `AtomicCompactionUpdate` in order: the credit phase inserts every
output PhysId into the entry of each cuid it maps to, creating entries if
absent (conjunct 1); then every involved cuid with an entry loses every
input-file PhysId from its set, so after the call no involved cuid's entry
contains an input file (conjunct 2); finally empty deleted entries are
erased, so an involved cuid that is marked deleted, all of whose files are
among the input files and which survives into no output, ends with no
entry and `IsTracked` returns false (conjunct 3). -/
theorem atomicCompactionUpdate_full_gc (t : GDCT)
    (involved_cuids input_files : List Nat) (outs : List (Nat × List Nat))
    (cuid : Nat) (e : Entry)
    (hmem : cuid ∈ involved_cuids) (hentry : t cuid = some e)
    (hdel : e.is_deleted = true)
    (hsub : ∀ p ∈ e.tracked_phys_ids, p ∈ input_files)
    (hout : ∀ pr ∈ outs, cuid ∉ pr.2) :
    (∀ pr ∈ outs, ∀ c0 ∈ pr.2,
      pr.1 ∈ (lookupOrInit (creditOutputs t outs) c0).tracked_phys_ids) ∧
    (∀ c0 ∈ involved_cuids, ∀ p0 ∈ input_files, ∀ e0 : Entry,
      atomicCompactionUpdate t involved_cuids input_files outs c0 = some e0 →
      p0 ∉ e0.tracked_phys_ids) ∧
    isTracked (atomicCompactionUpdate t involved_cuids input_files outs) cuid = false := by
  refine ⟨fun pr hpr c0 hc0 => creditOutputs_mem outs t pr hpr c0 hc0, ?_, ?_⟩
  · intro c0 hc0 p0 hp0 e0 he0
    exact debitFold_no_input involved_cuids input_files _ c0 p0 hp0 (Or.inl hc0) e0 he0
  · have hcredit : creditOutputs t outs cuid = some e := by
      rw [creditOutputs_not_mem _ _ _ hout]; exact hentry
    have hnone : atomicCompactionUpdate t involved_cuids input_files outs cuid = none :=
      debitFold_gc involved_cuids input_files _ cuid e hmem hcredit hdel hsub
    simp [isTracked, hnone]

/-- Witness for C2: a deleted cuid whose two files are both compaction
inputs and which survives into no output loses its entry, while the
output file is credited to its survivor. -/
theorem atomicCompactionUpdate_full_gc_witness :
    isTracked (atomicCompactionUpdate
      (updateEntry (fun _ => none) 3 ⟨{7, 8}, true, 5⟩) [3] [7, 8] [(9, [4])]) 3 = false :=
  (atomicCompactionUpdate_full_gc _ [3] [7, 8] [(9, [4])] 3 ⟨{7, 8}, true, 5⟩
    (by decide) (by decide) rfl (by decide) (by decide)).2.2

/-- C9.  `AtomicCompactionUpdate` leaves every cuid that is neither
involved nor in any output survivor set completely unchanged: its entry
(and hence `IsTracked`) is exactly as before and no entry is created. -/
theorem atomicCompactionUpdate_frame (t : GDCT)
    (involved_cuids input_files : List Nat) (outs : List (Nat × List Nat))
    (cuid : Nat)
    (hinv : cuid ∉ involved_cuids) (hout : ∀ pr ∈ outs, cuid ∉ pr.2) :
    atomicCompactionUpdate t involved_cuids input_files outs cuid = t cuid ∧
    isTracked (atomicCompactionUpdate t involved_cuids input_files outs) cuid =
      isTracked t cuid := by
  have hc : creditOutputs t outs cuid = t cuid := creditOutputs_not_mem _ _ _ hout
  have hd : atomicCompactionUpdate t involved_cuids input_files outs cuid =
      creditOutputs t outs cuid :=
    debitFold_not_mem involved_cuids input_files _ cuid hinv
  refine ⟨hd.trans hc, ?_⟩
  simp [isTracked, hd, hc]

/-- Witness for C9: cuid 1 is untouched by a compaction involving cuid 2
only. -/
theorem atomicCompactionUpdate_frame_witness :
    atomicCompactionUpdate (updateEntry (fun _ => none) 1 ⟨{7}, true, 5⟩)
        [2] [7] [(9, [2])] 1 =
      updateEntry (fun _ => none) 1 ⟨{7}, true, 5⟩ 1 :=
  (atomicCompactionUpdate_frame _ [2] [7] [(9, [2])] 1 (by decide) (by decide)).1

/-- C3 counterexample.  In the source the GC erase inside
`UntrackPhysicalUnit` is commented out (global_delete_count_table.cc lines
23–26): untracking the last file of a deleted cuid leaves the entry in the
table, so `IsTracked` still returns true, contradicting the claim that the
entry is erased. -/
theorem untrackPhysicalUnit_counterexample :
    isTracked (untrackPhysicalUnit
      (updateEntry (fun _ => none) 1 ⟨{7}, true, 5⟩) 1 7) 1 = true := by
  decide

/-- C3 amended.  `UntrackPhysicalUnit(cuid, phys_id)` removes `phys_id`
from the entry's set but never erases the entry — `IsTracked` is unchanged
even when the set becomes empty with `is_deleted` set; the GC erase is
performed only by the batched `UntrackFiles`, after which `IsTracked`
returns false. -/
theorem untrackPhysicalUnit_amended (t : GDCT) (cuid phys_id : Nat) (fids : List Nat) :
    untrackPhysicalUnit t cuid phys_id cuid =
      (t cuid).map (fun e => { e with tracked_phys_ids := e.tracked_phys_ids.erase phys_id }) ∧
    isTracked (untrackPhysicalUnit t cuid phys_id) cuid = isTracked t cuid ∧
    (∀ e : Entry, t cuid = some e → e.is_deleted = true →
      (∀ p ∈ e.tracked_phys_ids, p ∈ fids) →
      isTracked (untrackFiles t cuid fids) cuid = false) := by
  refine ⟨untrackPhysicalUnit_self t cuid phys_id, ?_, ?_⟩
  · rw [isTracked, isTracked, untrackPhysicalUnit_self]
    cases t cuid <;> rfl
  · intro e he hdel hsub
    rw [isTracked, untrackFiles_gc t cuid fids e he hdel hsub]
    rfl

/-- Witness for C3 amended: the batched untrack of the last file of a
deleted cuid does erase the entry. -/
theorem untrackPhysicalUnit_amended_witness :
    isTracked (untrackFiles
      (updateEntry (fun _ => none) 1 ⟨{7}, true, 5⟩) 1 [7]) 1 = false :=
  (untrackPhysicalUnit_amended (updateEntry (fun _ => none) 1 ⟨{7}, true, 5⟩)
    1 9 [7]).2.2 ⟨{7}, true, 5⟩ (by decide) rfl (by decide)

/-- C4 counterexample.  With a delete already recorded at sequence 10 for
cuid 1, intercepting a delete of a cuid-1 key at sequence 5 returns true
but `GetDeleteSequence` afterwards returns 10, not the 5 the claim
promises. -/
theorem interceptDelete_counterexample :
    (interceptDelete (markDeleted (fun _ => none) 1 10).2
        (List.replicate 16 0 ++ [0, 0, 0, 0, 0, 0, 0, 1]) 5).1 = true ∧
    getDeleteSequence (interceptDelete (markDeleted (fun _ => none) 1 10).2
        (List.replicate 16 0 ++ [0, 0, 0, 0, 0, 0, 0, 1]) 5).2 1 ≠ 5 := by
  decide

/-- C4 amended.  `InterceptDelete(key, seq)` returns false and leaves the
table unchanged when the extracted CUID is 0; otherwise it performs
`MarkDeleted(cuid, seq)` and returns true, and `GetDeleteSequence(cuid)`
subsequently returns `seq` whenever the previously recorded delete
sequence was `SeqMax` or smaller than `seq` (in particular whenever the
cuid was untracked); otherwise the earlier, larger sequence is kept. -/
theorem interceptDelete_amended (t : GDCT) (key : List Nat) (seq : Nat) :
    (extractCUID key = 0 → interceptDelete t key seq = (false, t)) ∧
    (extractCUID key ≠ 0 →
      (interceptDelete t key seq).1 = true ∧
      (interceptDelete t key seq).2 = (markDeleted t (extractCUID key) seq).2 ∧
      ((lookupOrInit t (extractCUID key)).deleted_seq = kMaxSequenceNumber ∨
        (lookupOrInit t (extractCUID key)).deleted_seq < seq →
        getDeleteSequence (interceptDelete t key seq).2 (extractCUID key) = seq)) := by
  constructor
  · intro h0; simp [interceptDelete, h0]
  · intro h0
    have h1 : (interceptDelete t key seq).1 = true := by simp [interceptDelete, h0]
    have h2 : (interceptDelete t key seq).2 = (markDeleted t (extractCUID key) seq).2 := by
      simp [interceptDelete, h0]
    refine ⟨h1, h2, ?_⟩
    intro hcond
    rw [h2, getDeleteSequence, markDeleted_snd_self]
    simp [hcond]

/-- Witness for C4 amended: a short key is ignored, and intercepting a
delete of an untracked cuid records exactly its sequence. -/
theorem interceptDelete_amended_witness :
    interceptDelete (fun _ => none) [] 5 = (false, fun _ => none) ∧
    getDeleteSequence
      (interceptDelete (fun _ => none)
        (List.replicate 16 0 ++ [0, 0, 0, 0, 0, 0, 0, 1]) 5).2
      (extractCUID (List.replicate 16 0 ++ [0, 0, 0, 0, 0, 0, 0, 1])) = 5 :=
  ⟨(interceptDelete_amended (fun _ => none) [] 5).1 (by decide),
   ((interceptDelete_amended (fun _ => none)
      (List.replicate 16 0 ++ [0, 0, 0, 0, 0, 0, 0, 1]) 5).2 (by decide)).2.2
     (Or.inl (by decide))⟩

/-- C7.  The claim (and the spec: "CUID value 0 denotes 'no CUID' and is
never tracked") is violated by the source: `RegisterFileRefs` forwards
every cuid of its set to `TrackPhysicalUnit` with no filtering
(hotspot_manager.cc lines 71–75), so registering a file for cuid 0 lazily
creates an entry and `IsTracked(0)` returns true afterwards. -/
theorem registerFileRefs_tracks_cuid_zero :
    isTracked (registerFileRefs (fun _ => none) 7 [0]) 0 = true := by
  decide

/-- C10.  Once an entry's `is_deleted` flag is set, no single GDCT
operation (`TrackPhysicalUnit`, `UntrackPhysicalUnit`, `UntrackFiles`,
`MarkDeleted`, `AtomicCompactionUpdate`, each at arbitrary arguments)
resets it while the entry exists: afterwards the cuid's entry is either
gone in its entirety or still marked deleted. -/
theorem is_deleted_flag_stable (t : GDCT) (c c2 p seq : Nat)
    (fids input_files involved_cuids : List Nat) (outs : List (Nat × List Nat))
    (e : Entry) (h : t c = some e) (hdel : e.is_deleted = true) :
    delOrGone (trackPhysicalUnit t c2 p).2 c ∧
    delOrGone (untrackPhysicalUnit t c2 p) c ∧
    delOrGone (untrackFiles t c2 fids) c ∧
    delOrGone (markDeleted t c2 seq).2 c ∧
    delOrGone (atomicCompactionUpdate t involved_cuids input_files outs) c := by
  refine ⟨?_, ?_, ?_, ?_, ?_⟩
  · by_cases hx : c = c2
    · subst hx
      have hlook : lookupOrInit t c = e := by simp [lookupOrInit, h]
      refine Or.inr ⟨_, trackPhysicalUnit_snd_self t c p, ?_⟩
      rw [hlook]; exact hdel
    · exact Or.inr ⟨e, by rw [trackPhysicalUnit_snd_ne _ _ _ _ hx]; exact h, hdel⟩
  · by_cases hx : c = c2
    · subst hx
      exact Or.inr ⟨{ e with tracked_phys_ids := e.tracked_phys_ids.erase p },
        by rw [untrackPhysicalUnit_self, h]; rfl, hdel⟩
    · exact Or.inr ⟨e, by rw [untrackPhysicalUnit_ne _ _ _ _ hx]; exact h, hdel⟩
  · by_cases hx : c = c2
    · subst hx
      simp only [untrackFiles, h]
      split
      · exact Or.inl (eraseEntry_self _ _)
      · exact Or.inr ⟨_, updateEntry_self _ _ _, hdel⟩
    · exact Or.inr ⟨e, by rw [untrackFiles_ne _ _ _ _ hx]; exact h, hdel⟩
  · by_cases hx : c = c2
    · subst hx
      exact Or.inr ⟨_, markDeleted_snd_self t c seq, rfl⟩
    · exact Or.inr ⟨e, by rw [markDeleted_snd_ne _ _ _ _ hx]; exact h, hdel⟩
  · obtain ⟨s, hs⟩ := creditOutputs_flag outs t c e h
    refine debitFold_delOrGone involved_cuids input_files _ c ?_
    exact Or.inr ⟨⟨s, e.is_deleted, e.deleted_seq⟩, hs, hdel⟩

/-- Witness for C10 at a concrete flagged entry and concrete operations,
including a compaction that touches the cuid itself. -/
theorem is_deleted_flag_stable_witness :
    delOrGone (trackPhysicalUnit (updateEntry (fun _ => none) 1 ⟨{7}, true, 5⟩) 1 9).2 1 ∧
    delOrGone (untrackPhysicalUnit (updateEntry (fun _ => none) 1 ⟨{7}, true, 5⟩) 1 9) 1 ∧
    delOrGone (untrackFiles (updateEntry (fun _ => none) 1 ⟨{7}, true, 5⟩) 1 [7]) 1 ∧
    delOrGone (markDeleted (updateEntry (fun _ => none) 1 ⟨{7}, true, 5⟩) 1 9).2 1 ∧
    delOrGone (atomicCompactionUpdate (updateEntry (fun _ => none) 1 ⟨{7}, true, 5⟩)
      [1] [7] [(9, [1])]) 1 :=
  is_deleted_flag_stable (updateEntry (fun _ => none) 1 ⟨{7}, true, 5⟩)
    1 1 9 9 [7] [7] [1] [(9, [1])] ⟨{7}, true, 5⟩ (by decide) rfl

end Gdct
